import Mathlib

/-!
Shallow embedding of the discord-events-bot synchronization core
(src/eventsbot/eventsbot.py, src/eventsbot/discord.py, src/eventsbot/history.py).

Modelling choices:
* `Event` mirrors the dataclass `Event` in discord.py; `metadata` is a list of
  string pairs (the Python dict holds a single "location" key in this program).
* The remote platform (Discord guild) is a `GuildState` holding the cached
  event list; within a run the list evolves only through this run's creations
  (`create_event` re-fetches after each POST).  External mutations and TTL
  expiry mid-run are not modelled.
* Network outcomes are supplied by oracles: `create_oracle n` is the id
  returned by the n-th event-creation API call (`none` = the POST failed and no
  event was created; the Python code then sees `scheduled_event.get("id", "")`
  yield the empty string), `msg_oracle id` is the `(message_id, channel_id)`
  pair returned when announcing the event with remote id `id`, and
  `delete_oracle rec` is the HTTP status returned by the DELETE call for a
  history record.
* The history file is represented by its content: the run receives the loaded
  record list and `RunResult.saved_history` is the full content written back
  (`none` when the run never reached `save_history`).
* An uncaught Python exception is modelled as `Except.error`.
-/

/-- Mirrors the dataclass `Event` of src/eventsbot/discord.py. -/
structure Event where
  event_id : Option String
  name : String
  description : String
  start_time : String
  end_time : String
  metadata : List (String × String)
  privacy_level : Nat := 2
deriving DecidableEq, Repr

/-- Mirrors `Event.__eq__` (discord.py lines 38-49): field-by-field comparison of
name, start_time, end_time, metadata and privacy_level; `event_id` and
`description` are not compared, and the time fields are plain strings. -/
def eqEvent (a b : Event) : Bool :=
  a.name == b.name
    && a.start_time == b.start_time
    && a.end_time == b.end_time
    && a.metadata == b.metadata
    && a.privacy_level == b.privacy_level

/-- Python `event in guild.events` membership, which tests with `__eq__`. -/
def event_in_list (e : Event) (l : List Event) : Bool :=
  l.any (fun r => eqEvent e r)

/-- Normalization of an ISO-8601 instant string: a trailing `Z` denotes the
same instant as a `+00:00` offset.  Used only to express the spec's reading of
time comparison. -/
def normInstantChars : List Char → List Char
  | [] => []
  | ['Z'] => ['+', '0', '0', ':', '0', '0']
  | c :: rest => c :: normInstantChars rest

/-- Modelled from the spec: the equality predicate as §3/§4.2 describe it,
with start and end times compared as normalized UTC instants (trailing `Z`
equal to `+00:00`) instead of raw strings.  For comparison against the
code-derived `eqEvent`. -/
def specEqEvent (a b : Event) : Bool :=
  a.name == b.name
    && String.mk (normInstantChars a.start_time.data)
        == String.mk (normInstantChars b.start_time.data)
    && String.mk (normInstantChars a.end_time.data)
        == String.mk (normInstantChars b.end_time.data)
    && a.metadata == b.metadata
    && a.privacy_level == b.privacy_level

/-- One record of the message history (history.py / §3 HistoryRecord). -/
structure HistoryRecord where
  event_id : String
  message_id : String
  channel_id : String
deriving DecidableEq, Repr

/-- The cached remote guild state: the list returned by the scheduled-events
endpoint (discord.py `DiscordGuild._events`). -/
structure GuildState where
  events : List Event
deriving Repr

/-- Mirrors `DiscordGuild.event_id_exists` (discord.py lines 163-166). -/
def event_id_exists (st : GuildState) (eid : String) : Bool :=
  (st.events.map (fun e => e.event_id)).contains (some eid)

/-- Mirrors `cleanup_old_messages` (eventsbot.py lines 142-154): for every record whose
event id is absent from the guild's event list, a DELETE is issued (its status
is recorded but never inspected by the caller) and the record is collected in
`deleted_messages`; the function returns the records not in that collection.
Result: (list of (record, DELETE status)) and the retained records. -/
def cleanup_old_messages (delete_oracle : HistoryRecord → Nat) (st : GuildState)
    (history : List HistoryRecord) :
    List (HistoryRecord × Nat) × List HistoryRecord :=
  let deleted := history.filter (fun m => ! event_id_exists st m.event_id)
  (deleted.map (fun m => (m, delete_oracle m)),
   history.filter (fun m => ! deleted.contains m))

/-- State threaded through the creation loop of `update_events`
(eventsbot.py lines 183-198). -/
structure CreationState where
  guild : GuildState
  create_calls : List Event
  created : List (String × Event)
  sent_messages : List HistoryRecord
  added_events : Nat
  attempt : Nat
deriving Repr

/-- One iteration of the `for event in events` loop of `update_events`
(eventsbot.py lines 183-198): skip when an equal event is already in
`guild.events`; otherwise call `create_event` (which appends the created event
to the guild's refreshed list on success and returns `""` on failure), skip
the rest on a falsy id, else count it and, when a message configuration is
present, send the announcement and record it. -/
def process_event (msg_cfg : Bool) (create_oracle : Nat → Option String)
    (msg_oracle : String → String × String) (s : CreationState) (event : Event) :
    CreationState :=
  if event_in_list event s.guild.events then s
  else
    let calls := s.create_calls ++ [event]
    match create_oracle s.attempt with
    | none =>
        { s with create_calls := calls, attempt := s.attempt + 1 }
    | some id =>
        let guild' : GuildState := ⟨s.guild.events ++ [{ event with event_id := some id }]⟩
        if id = "" then
          { s with create_calls := calls, guild := guild', attempt := s.attempt + 1 }
        else
          let base := { s with
            create_calls := calls
            guild := guild'
            attempt := s.attempt + 1
            created := s.created ++ [(id, event)]
            added_events := s.added_events + 1 }
          if msg_cfg then
            let mc := msg_oracle id
            { base with sent_messages := base.sent_messages ++ [⟨id, mc.1, mc.2⟩] }
          else base

/-- The whole creation-and-announcement phase over the candidate list. -/
def creation_loop (msg_cfg : Bool) (create_oracle : Nat → Option String)
    (msg_oracle : String → String × String) (st0 : GuildState)
    (events : List Event) : CreationState :=
  events.foldl (process_event msg_cfg create_oracle msg_oracle)
    ⟨st0, [], [], [], 0, 0⟩

/-- Outcome of fetching and parsing the calendar in `get_this_week_events`:
either a candidate list, a network error (`requests` exception, caught by
`update_events`), or a parse error raised by `icalendar.Calendar.from_ical`
(not caught by any handler in eventsbot.py). -/
inductive CalResult where
  | ok (events : List Event)
  | networkError
  | parseError
deriving Repr

/-- Observable outcome of one `update_events` run. -/
structure RunResult where
  create_calls : List Event
  created : List (String × Event)
  sent_messages : List HistoryRecord
  delete_calls : List (HistoryRecord × Nat)
  added_events : Nat
  summary : Option String
  saved_history : Option (List HistoryRecord)
  guild : GuildState
deriving Repr

/-- Mirrors `update_events` (eventsbot.py lines 157-210).  A network error during the
calendar fetch is caught and the run returns having taken no action; a parse
error propagates as an uncaught exception (`Except.error`).  Otherwise: load
history (given here as `history0`), on an empty candidate list run only the
retraction phase and save; else run the creation loop, build the summary
message, append the sent messages to the history, run the retraction phase on
the result and save it wholesale. -/
def update_events (cal : CalResult) (history0 : List HistoryRecord)
    (msg_cfg : Bool) (create_oracle : Nat → Option String)
    (msg_oracle : String → String × String) (delete_oracle : HistoryRecord → Nat)
    (st0 : GuildState) : Except Unit RunResult :=
  match cal with
  | .parseError => .error ()
  | .networkError =>
      .ok { create_calls := [], created := [], sent_messages := [], delete_calls := []
            added_events := 0, summary := none, saved_history := none, guild := st0 }
  | .ok events =>
      if events.isEmpty then
        let cl := cleanup_old_messages delete_oracle st0 history0
        .ok { create_calls := [], created := [], sent_messages := [], delete_calls := cl.1
              added_events := 0, summary := none, saved_history := some cl.2, guild := st0 }
      else
        let s := creation_loop msg_cfg create_oracle msg_oracle st0 events
        let summary :=
          if s.added_events = 0 then "All upcoming events already exist."
          else toString s.added_events ++ " new event"
                ++ (if s.added_events > 1 then "s" else "") ++ " added."
        let history1 := history0 ++ s.sent_messages
        let cl := cleanup_old_messages delete_oracle s.guild history1
        .ok { create_calls := s.create_calls, created := s.created
              sent_messages := s.sent_messages, delete_calls := cl.1
              added_events := s.added_events, summary := some summary
              saved_history := some cl.2, guild := s.guild }

/-- Parse outcome of the history file content: `json.load` either yields a
record list or raises `JSONDecodeError` (malformed content). -/
inductive HistFileContent where
  | valid (records : List HistoryRecord)
  | malformed
deriving Repr

/-- Result of loading the history, with the `logger.warning` flag. -/
structure LoadResult where
  history : List HistoryRecord
  warned : Bool
deriving DecidableEq, Repr

/-- Mirrors `FileHistory._load` (history.py lines 106-114), after `__init__` set
`self.history = []` (line 62): a successful `json.load` replaces the history;
a `JSONDecodeError` is caught, a warning is logged and the initial empty list
is kept.  No exception escapes. -/
def file_history_load : HistFileContent → LoadResult
  | .valid records => { history := records, warned := false }
  | .malformed => { history := [], warned := true }

/-- Mirrors `FileHistory.__init__` (history.py lines 59-64): `_check` creates an empty
(`[]`) file when none exists, then `_load` runs on the file's content (`none`
models an absent file). -/
def file_history_init : Option HistFileContent → LoadResult
  | none => file_history_load (.valid [])
  | some c => file_history_load c

/-- The first list occurs contiguously at the start of the second. -/
def chars_lead : List Char → List Char → Bool
  | [], _ => true
  | _ :: _, [] => false
  | a :: as, b :: bs => a == b && chars_lead as bs

/-- Whether `pat` occurs contiguously somewhere in the list (regex `re.search` of a
literal, unanchored). -/
def chars_contain (pat : List Char) : List Char → Bool
  | [] => chars_lead pat []
  | c :: cs => chars_lead pat (c :: cs) || chars_contain pat cs

/-- The list ends with character `c` (regex `c$`). -/
def chars_end (c : Char) (l : List Char) : Bool :=
  match l.getLast? with
  | some d => c == d
  | none => false

/-- Mirrors `re.search(r"^[Y|y]es|YES|[T|t]rue|TRUE|[O|o]n|ON|1$", value)` from
`get_from_env` (eventsbot.py line 242).  Alternation binds loosest, so only
the first alternative is anchored at the start and only the last at the end;
the character classes `[Y|y]` etc. also contain the literal `|`. -/
def truthy_search (value : String) : Bool :=
  let cs := value.data
  chars_lead ['Y', 'e', 's'] cs || chars_lead ['|', 'e', 's'] cs
    || chars_lead ['y', 'e', 's'] cs
    || chars_contain ['Y', 'E', 'S'] cs
    || chars_contain ['T', 'r', 'u', 'e'] cs
    || chars_contain ['|', 'r', 'u', 'e'] cs
    || chars_contain ['t', 'r', 'u', 'e'] cs
    || chars_contain ['T', 'R', 'U', 'E'] cs
    || chars_contain ['O', 'n'] cs || chars_contain ['|', 'n'] cs
    || chars_contain ['o', 'n'] cs
    || chars_contain ['O', 'N'] cs
    || chars_end '1' cs

/-- Mirrors `re.search(r"^[N|n]o|NO|[F|f]alse|FALSE|[O|o]ff|OFF|0$", value)` from
`get_from_env` (eventsbot.py line 244), same anchoring remarks. -/
def falsy_search (value : String) : Bool :=
  let cs := value.data
  chars_lead ['N', 'o'] cs || chars_lead ['|', 'o'] cs || chars_lead ['n', 'o'] cs
    || chars_contain ['N', 'O'] cs
    || chars_contain ['F', 'a', 'l', 's', 'e'] cs
    || chars_contain ['|', 'a', 'l', 's', 'e'] cs
    || chars_contain ['f', 'a', 'l', 's', 'e'] cs
    || chars_contain ['F', 'A', 'L', 'S', 'E'] cs
    || chars_contain ['O', 'f', 'f'] cs || chars_contain ['|', 'f', 'f'] cs
    || chars_contain ['o', 'f', 'f'] cs
    || chars_contain ['O', 'F', 'F'] cs
    || chars_end '0' cs

/-- Return type of `get_from_env`: `None | bool | str`. -/
inductive EnvResult where
  | none
  | bool (b : Bool)
  | str (s : String)
deriving DecidableEq, Repr

/-- Mirrors `get_from_env` (eventsbot.py lines 233-246): an unset variable yields the
default; otherwise the value is searched against the truthy then the falsy
regex and coerced to a boolean on a match, else returned as the string. -/
def get_from_env (env : Option String) (dflt : Option String) : EnvResult :=
  match env with
  | none =>
      match dflt with
      | none => .none
      | some d => .str d
  | some value =>
      if truthy_search value then .bool true
      else if falsy_search value then .bool false
      else .str value

/-- The exact boolean literals an anchored reading of the two regexes would
accept (`^(...)$` over each alternative). -/
def bool_literals : List String :=
  ["Yes", "yes", "YES", "True", "true", "TRUE", "On", "on", "ON", "1",
   "No", "no", "NO", "False", "false", "FALSE", "Off", "off", "OFF", "0"]

/-- Seconds in a day; the time model counts seconds from an epoch falling on a
Monday 00:00 UTC, so `weekday_of` matches Python's `datetime.weekday()`. -/
def seconds_per_day : Nat := 86400

/-- Python `now.weekday()`: 0 = Monday, ..., 6 = Sunday. -/
def weekday_of (t : Nat) : Nat := (t / seconds_per_day) % 7

/-- The query window of `get_this_week_events` (eventsbot.py lines 61-66):
`start_date = now - timedelta(days=now.weekday())` keeps the time of day of
`now`; `end_date = start_date + timedelta(days=6)`; the recurrence expansion
is asked for events `between(now, end_date)`.  The window is the pair
(lower bound, upper bound) in epoch seconds. -/
def this_week_window (now : Nat) : Nat × Nat :=
  let start_date := now - seconds_per_day * weekday_of now
  (now, start_date + 6 * seconds_per_day)

/-- Modelled from the spec: the fetch window as §4.4 step 1 states it, Monday
00:00 through Sunday 23:59:59 UTC of the current week, inclusive, independent
of the time of day the run starts. -/
def spec_week_window (now : Nat) : Nat × Nat :=
  let monday := seconds_per_day * (now / seconds_per_day - weekday_of now)
  (monday, monday + 6 * seconds_per_day + 86399)

/-- A point in time lies in a closed window. -/
def in_window (w : Nat × Nat) (t : Nat) : Bool :=
  w.1 ≤ t && t ≤ w.2

/-- Mirrors `get_this_week_events` (eventsbot.py lines 55-78) restricted to its
selection behaviour: the calendar is a list of (occurrence instant, event)
pairs and the candidates are the events whose instant falls in the queried
window. -/
def get_this_week_events (cal : List (Nat × Event)) (now : Nat) : List Event :=
  (cal.filter (fun p => in_window (this_week_window now) p.1)).map (fun p => p.2)

/-! ### Basic lemmas about the event equality predicate -/

theorem eqEvent_iff (a b : Event) :
    eqEvent a b = true ↔
      a.name = b.name ∧ a.start_time = b.start_time ∧ a.end_time = b.end_time
        ∧ a.metadata = b.metadata ∧ a.privacy_level = b.privacy_level := by
  simp [eqEvent, Bool.and_eq_true, and_assoc]

theorem eqEvent_symm {a b : Event} (h : eqEvent a b = true) : eqEvent b a = true := by
  rw [eqEvent_iff] at h ⊢
  obtain ⟨h1, h2, h3, h4, h5⟩ := h
  exact ⟨h1.symm, h2.symm, h3.symm, h4.symm, h5.symm⟩

theorem eqEvent_trans {a b c : Event} (h1 : eqEvent a b = true)
    (h2 : eqEvent b c = true) : eqEvent a c = true := by
  rw [eqEvent_iff] at h1 h2 ⊢
  obtain ⟨a1, a2, a3, a4, a5⟩ := h1
  obtain ⟨b1, b2, b3, b4, b5⟩ := h2
  exact ⟨a1.trans b1, a2.trans b2, a3.trans b3, a4.trans b4, a5.trans b5⟩

theorem eqEvent_copy (e : Event) (id : Option String) :
    eqEvent e { e with event_id := id } = true := by
  rw [eqEvent_iff]
  exact ⟨rfl, rfl, rfl, rfl, rfl⟩

theorem event_in_list_iff (e : Event) (l : List Event) :
    event_in_list e l = true ↔ ∃ r ∈ l, eqEvent e r = true := by
  simp [event_in_list, List.any_eq_true]

theorem event_in_list_mono {e : Event} {l l' : List Event} (hsub : l ⊆ l')
    (h : event_in_list e l = true) : event_in_list e l' = true := by
  rw [event_in_list_iff] at h ⊢
  obtain ⟨r, hr, he⟩ := h
  exact ⟨r, hsub hr, he⟩

theorem event_id_exists_mono {st st' : GuildState} {eid : String}
    (hsub : st.events ⊆ st'.events) (h : event_id_exists st eid = true) :
    event_id_exists st' eid = true := by
  simp only [event_id_exists, List.contains_iff_exists_mem_beq] at h ⊢
  obtain ⟨x, hx, hbeq⟩ := h
  simp only [List.mem_map] at hx
  obtain ⟨ev, hev, hid⟩ := hx
  exact ⟨x, List.mem_map.mpr ⟨ev, hsub hev, hid⟩, hbeq⟩

/-! ### Lemmas about `cleanup_old_messages` -/

theorem cleanup_kept (dlo : HistoryRecord → Nat) (st : GuildState)
    (history : List HistoryRecord) :
    (cleanup_old_messages dlo st history).2
      = history.filter (fun m => event_id_exists st m.event_id) := by
  unfold cleanup_old_messages
  refine List.filter_congr ?_
  intro m hm
  by_cases hP : event_id_exists st m.event_id = true
  · simp [List.mem_filter, hP]
  · simp only [Bool.not_eq_true] at hP
    simp [List.mem_filter, hm, hP]

/-! ### Invariants of the creation loop -/

theorem process_event_guild_sub (m : Bool) (co : Nat → Option String)
    (mo : String → String × String) (s : CreationState) (e : Event) :
    s.guild.events ⊆ (process_event m co mo s e).guild.events := by
  by_cases h1 : event_in_list e s.guild.events = true
  · simp [process_event, h1]
  · rw [Bool.not_eq_true] at h1
    cases hco : co s.attempt with
    | none => simp [process_event, h1, hco]
    | some id =>
        by_cases hid : id = ""
        · simp [process_event, h1, hco, hid, List.subset_append_left]
        · by_cases hm : m = true
          · simp [process_event, h1, hco, hid, hm, List.subset_append_left]
          · rw [Bool.not_eq_true] at hm
            simp [process_event, h1, hco, hid, hm, List.subset_append_left]

theorem foldl_guild_sub (m : Bool) (co : Nat → Option String)
    (mo : String → String × String) (events : List Event) :
    ∀ s : CreationState,
      s.guild.events ⊆ (events.foldl (process_event m co mo) s).guild.events := by
  induction events with
  | nil => intro s; exact fun x hx => hx
  | cons e es ih =>
      intro s
      exact List.Subset.trans (process_event_guild_sub m co mo s e) (ih _)

theorem event_in_copy (e : Event) (id : String) (l : List Event) :
    event_in_list e (l ++ [{ e with event_id := some id }]) = true := by
  rw [event_in_list_iff]
  exact ⟨{ e with event_id := some id }, List.mem_append_right _ (by simp),
    eqEvent_copy e (some id)⟩

theorem event_id_exists_copy (e : Event) (id : String) (l : List Event) :
    event_id_exists ⟨l ++ [{ e with event_id := some id }]⟩ id = true := by
  simp [event_id_exists]

/-- Invariant maintained by the creation loop, starting from guild `st0`. -/
structure LoopInv (st0 : GuildState) (s : CreationState) : Prop where
  mono : st0.events ⊆ s.guild.events
  calls_new : ∀ e ∈ s.create_calls, event_in_list e st0.events = false
  created_mem : ∀ p ∈ s.created, event_in_list p.2 s.guild.events = true
  created_pairwise : s.created.Pairwise (fun a b => eqEvent a.2 b.2 = false)
  sent_ok : ∀ rec ∈ s.sent_messages, event_id_exists s.guild rec.event_id = true
  added_len : s.added_events = s.created.length

theorem calls_new_step {st0 : GuildState} {s : CreationState} {e : Event}
    (h1 : event_in_list e s.guild.events = false)
    (hmono : st0.events ⊆ s.guild.events)
    (hc : ∀ x ∈ s.create_calls, event_in_list x st0.events = false) :
    ∀ x ∈ s.create_calls ++ [e], event_in_list x st0.events = false := by
  intro x hx
  rcases List.mem_append.mp hx with hx | hx
  · exact hc x hx
  · simp only [List.mem_singleton] at hx
    subst hx
    by_contra hmem
    rw [Bool.not_eq_false] at hmem
    have := event_in_list_mono hmono hmem
    rw [h1] at this
    exact Bool.false_ne_true this

theorem created_pair_step {s : CreationState} {e : Event} {id : String}
    (h1 : event_in_list e s.guild.events = false)
    (hcm : ∀ p ∈ s.created, event_in_list p.2 s.guild.events = true)
    (hp : s.created.Pairwise (fun a b => eqEvent a.2 b.2 = false)) :
    (s.created ++ [(id, e)]).Pairwise (fun a b => eqEvent a.2 b.2 = false) := by
  rw [List.pairwise_append]
  refine ⟨hp, List.pairwise_singleton _ _, ?_⟩
  intro p hpmem q hq
  simp only [List.mem_singleton] at hq
  subst hq
  by_contra hne
  rw [Bool.not_eq_false] at hne
  obtain ⟨r, hr, hpr⟩ := (event_in_list_iff _ _).mp (hcm p hpmem)
  have : eqEvent e r = true := eqEvent_trans (eqEvent_symm hne) hpr
  have : event_in_list e s.guild.events = true :=
    (event_in_list_iff _ _).mpr ⟨r, hr, this⟩
  rw [h1] at this
  exact Bool.false_ne_true this

theorem loopInv_step (st0 : GuildState) (m : Bool) (co : Nat → Option String)
    (mo : String → String × String) (s : CreationState) (e : Event)
    (h : LoopInv st0 s) : LoopInv st0 (process_event m co mo s e) := by
  by_cases h1 : event_in_list e s.guild.events = true
  · simpa [process_event, h1] using h
  · rw [Bool.not_eq_true] at h1
    cases hco : co s.attempt with
    | none =>
        simp only [process_event, h1, Bool.false_eq_true, if_false, hco]
        exact ⟨h.mono, calls_new_step h1 h.mono h.calls_new, h.created_mem,
          h.created_pairwise, h.sent_ok, h.added_len⟩
    | some id =>
        have hsub : s.guild.events ⊆ s.guild.events ++ [{ e with event_id := some id }] :=
          List.subset_append_left _ _
        have hmono' : st0.events ⊆ s.guild.events ++ [{ e with event_id := some id }] :=
          List.Subset.trans h.mono hsub
        have hmem' : ∀ p ∈ s.created,
            event_in_list p.2 (s.guild.events ++ [{ e with event_id := some id }]) = true :=
          fun p hp => event_in_list_mono hsub (h.created_mem p hp)
        have hsent' : ∀ rec ∈ s.sent_messages,
            event_id_exists ⟨s.guild.events ++ [{ e with event_id := some id }]⟩
              rec.event_id = true :=
          fun rec hr => event_id_exists_mono hsub (h.sent_ok rec hr)
        by_cases hid : id = ""
        · simp only [process_event, h1, Bool.false_eq_true, if_false, hco]
          rw [if_pos hid]
          exact ⟨hmono', calls_new_step h1 h.mono h.calls_new, hmem',
            h.created_pairwise, hsent', h.added_len⟩
        · have hmemnew : ∀ p ∈ s.created ++ [(id, e)],
              event_in_list p.2 (s.guild.events ++ [{ e with event_id := some id }]) = true := by
            intro p hp
            rcases List.mem_append.mp hp with hp | hp
            · exact hmem' p hp
            · simp only [List.mem_singleton] at hp
              subst hp
              exact event_in_copy e id s.guild.events
          have hsentnew : ∀ rec ∈ s.sent_messages ++ [⟨id, (mo id).1, (mo id).2⟩],
              event_id_exists ⟨s.guild.events ++ [{ e with event_id := some id }]⟩
                rec.event_id = true := by
            intro rec hr
            rcases List.mem_append.mp hr with hr | hr
            · exact hsent' rec hr
            · simp only [List.mem_singleton] at hr
              subst hr
              exact event_id_exists_copy e id s.guild.events
          have hlen : s.added_events + 1 = (s.created ++ [(id, e)]).length := by
            simp [h.added_len]
          by_cases hm : m = true
          · simp only [process_event, h1, Bool.false_eq_true, if_false, hco]
            rw [if_neg hid, if_pos hm]
            exact ⟨hmono', calls_new_step h1 h.mono h.calls_new, hmemnew,
              created_pair_step h1 h.created_mem h.created_pairwise, hsentnew, hlen⟩
          · simp only [process_event, h1, Bool.false_eq_true, if_false, hco]
            rw [if_neg hid, if_neg hm]
            exact ⟨hmono', calls_new_step h1 h.mono h.calls_new, hmemnew,
              created_pair_step h1 h.created_mem h.created_pairwise, hsent', hlen⟩

theorem loopInv_fold (st0 : GuildState) (m : Bool) (co : Nat → Option String)
    (mo : String → String × String) (events : List Event) :
    ∀ s : CreationState, LoopInv st0 s →
      LoopInv st0 (events.foldl (process_event m co mo) s) := by
  induction events with
  | nil => intro s h; exact h
  | cons e es ih => intro s h; exact ih _ (loopInv_step st0 m co mo s e h)

theorem creation_loop_inv (st0 : GuildState) (m : Bool) (co : Nat → Option String)
    (mo : String → String × String) (events : List Event) :
    LoopInv st0 (creation_loop m co mo st0 events) := by
  refine loopInv_fold st0 m co mo events _ ?_
  exact ⟨fun x hx => hx, by simp, by simp, List.Pairwise.nil, by simp, rfl⟩

theorem process_event_of_mem {s : CreationState} {e : Event} (m : Bool)
    (co : Nat → Option String) (mo : String → String × String)
    (h1 : event_in_list e s.guild.events = true) :
    process_event m co mo s e = s := by
  simp [process_event, h1]

theorem foldl_noop (m : Bool) (co : Nat → Option String)
    (mo : String → String × String) (events : List Event) :
    ∀ s : CreationState, (∀ e ∈ events, event_in_list e s.guild.events = true) →
      events.foldl (process_event m co mo) s = s := by
  induction events with
  | nil => intro s _; rfl
  | cons e es ih =>
      intro s h
      have hstep : process_event m co mo s e = s :=
        process_event_of_mem m co mo (h e (List.mem_cons_self e es))
      rw [List.foldl_cons, hstep]
      exact ih s (fun f hf => h f (List.mem_cons_of_mem e hf))

theorem process_event_mem_self {s : CreationState} {e : Event} (m : Bool)
    (co : Nat → Option String) (mo : String → String × String)
    (hsucc : co s.attempt ≠ none ∧ co s.attempt ≠ some "") :
    event_in_list e (process_event m co mo s e).guild.events = true := by
  by_cases h1 : event_in_list e s.guild.events = true
  · rw [process_event_of_mem m co mo h1]
    exact h1
  · rw [Bool.not_eq_true] at h1
    cases hco : co s.attempt with
    | none => exact absurd hco hsucc.1
    | some id =>
        have hid : ¬ id = "" := by
          intro hcontra
          exact hsucc.2 (by rw [hco, hcontra])
        by_cases hm : m = true
        · simp only [process_event, h1, Bool.false_eq_true, if_false, hco]
          rw [if_neg hid, if_pos hm]
          exact event_in_copy e id s.guild.events
        · simp only [process_event, h1, Bool.false_eq_true, if_false, hco]
          rw [if_neg hid, if_neg hm]
          exact event_in_copy e id s.guild.events

theorem foldl_all_mem (m : Bool) (co : Nat → Option String)
    (mo : String → String × String)
    (hsucc : ∀ n, co n ≠ none ∧ co n ≠ some "") (events : List Event) :
    ∀ s : CreationState, ∀ e ∈ events,
      event_in_list e ((events.foldl (process_event m co mo) s).guild.events) = true := by
  induction events with
  | nil => intro s e he; exact absurd he (List.not_mem_nil e)
  | cons e es ih =>
      intro s f hf
      rcases List.mem_cons.mp hf with hf | hf
      · subst hf
        rw [List.foldl_cons]
        exact event_in_list_mono (foldl_guild_sub m co mo es _)
          (process_event_mem_self m co mo (hsucc s.attempt))
      · rw [List.foldl_cons]
        exact ih _ f hf

/-! ### Unfolding equations for `update_events` -/

theorem update_events_network (history0 : List HistoryRecord) (m : Bool)
    (co : Nat → Option String) (mo : String → String × String)
    (dlo : HistoryRecord → Nat) (st0 : GuildState) :
    update_events .networkError history0 m co mo dlo st0 =
      .ok { create_calls := [], created := [], sent_messages := [], delete_calls := []
            added_events := 0, summary := none, saved_history := none, guild := st0 } := rfl

theorem update_events_parse (history0 : List HistoryRecord) (m : Bool)
    (co : Nat → Option String) (mo : String → String × String)
    (dlo : HistoryRecord → Nat) (st0 : GuildState) :
    update_events .parseError history0 m co mo dlo st0 = .error () := rfl

theorem update_events_nil (history0 : List HistoryRecord) (m : Bool)
    (co : Nat → Option String) (mo : String → String × String)
    (dlo : HistoryRecord → Nat) (st0 : GuildState) :
    update_events (.ok []) history0 m co mo dlo st0 =
      .ok { create_calls := [], created := [], sent_messages := []
            delete_calls := (cleanup_old_messages dlo st0 history0).1
            added_events := 0, summary := none
            saved_history := some (cleanup_old_messages dlo st0 history0).2
            guild := st0 } := rfl

theorem update_events_cons (e : Event) (es : List Event)
    (history0 : List HistoryRecord) (m : Bool) (co : Nat → Option String)
    (mo : String → String × String) (dlo : HistoryRecord → Nat) (st0 : GuildState) :
    update_events (.ok (e :: es)) history0 m co mo dlo st0 =
      (let s := creation_loop m co mo st0 (e :: es)
       let cl := cleanup_old_messages dlo s.guild (history0 ++ s.sent_messages)
       .ok { create_calls := s.create_calls, created := s.created
             sent_messages := s.sent_messages, delete_calls := cl.1
             added_events := s.added_events
             summary := some (if s.added_events = 0 then "All upcoming events already exist."
               else toString s.added_events ++ " new event"
                 ++ (if s.added_events > 1 then "s" else "") ++ " added.")
             saved_history := some cl.2, guild := s.guild }) := rfl

/-! ### Concrete fixtures used by witnesses and counterexamples -/

/-- A calendar-derived candidate event (no id yet). -/
def wEvent : Event :=
  { event_id := none, name := "Party", description := ""
    start_time := "2024-01-01T10:00:00+00:00", end_time := "2024-01-01T11:00:00+00:00"
    metadata := [("location", "L")], privacy_level := 2 }

/-- A remote copy of `wEvent`: it has an id and a different description, which
`Event.__eq__` ignores. -/
def wRemote : Event :=
  { event_id := some "7", name := "Party", description := "remote side"
    start_time := "2024-01-01T10:00:00+00:00", end_time := "2024-01-01T11:00:00+00:00"
    metadata := [("location", "L")], privacy_level := 2 }

def wCo : Nat → Option String := fun _ => some "x1"

def wMo : String → String × String := fun id => (id ++ "m", "chan")

def wDlo : HistoryRecord → Nat := fun _ => 204

/-- The run of the C1 witness scenario: one candidate already present remotely. -/
def wRun : RunResult :=
  { create_calls := [], created := [], sent_messages := [], delete_calls := []
    added_events := 0, summary := some "All upcoming events already exist."
    saved_history := some [], guild := ⟨[wRemote]⟩ }

/-- C1: if an event equal (under `Event.__eq__`) to candidate E is already in
the guild's current event list, the run never calls create for E; and no two
events created by the same run are equal under the predicate. -/
theorem C1_no_duplicate_creation
    (cal_events : List Event) (history0 : List HistoryRecord) (m : Bool)
    (co : Nat → Option String) (mo : String → String × String)
    (dlo : HistoryRecord → Nat) (st0 : GuildState) (r : RunResult)
    (hrun : update_events (.ok cal_events) history0 m co mo dlo st0 = .ok r) :
    (∀ E ∈ cal_events, event_in_list E st0.events = true → E ∉ r.create_calls)
      ∧ r.created.Pairwise (fun a b => eqEvent a.2 b.2 = false) := by
  cases cal_events with
  | nil =>
      rw [update_events_nil] at hrun
      simp only [Except.ok.injEq] at hrun
      subst hrun
      exact ⟨by simp, List.Pairwise.nil⟩
  | cons e es =>
      rw [update_events_cons] at hrun
      simp only [Except.ok.injEq] at hrun
      subst hrun
      have hinv := creation_loop_inv st0 m co mo (e :: es)
      constructor
      · intro E _ hmem hcall
        have hnew := hinv.calls_new E hcall
        rw [hnew] at hmem
        exact Bool.false_ne_true hmem
      · exact hinv.created_pairwise

/-- Witness for C1 at a concrete input: one candidate equal to a remote event
is neither create-called nor duplicated. -/
theorem C1_no_duplicate_creation_witness :
    (∀ E ∈ [wEvent], event_in_list E (GuildState.mk [wRemote]).events = true
        → E ∉ wRun.create_calls)
      ∧ wRun.created.Pairwise (fun a b => eqEvent a.2 b.2 = false) :=
  C1_no_duplicate_creation [wEvent] [] true wCo wMo wDlo ⟨[wRemote]⟩ wRun rfl

/-- The candidate with a trailing-`Z` UTC instant. -/
def c2z : Event :=
  { event_id := none, name := "Party", description := ""
    start_time := "2024-01-01T10:00:00Z", end_time := "2024-01-01T11:00:00Z"
    metadata := [("location", "L")], privacy_level := 2 }

/-- The same instants written with a `+00:00` offset, on a remote event. -/
def c2off : Event :=
  { event_id := some "42", name := "Party", description := ""
    start_time := "2024-01-01T10:00:00+00:00", end_time := "2024-01-01T11:00:00+00:00"
    metadata := [("location", "L")], privacy_level := 2 }

/-- C2 counterexample: two events denoting the same instants (trailing `Z`
versus `+00:00` offset, equal after instant normalization) are NOT equal under
`Event.__eq__`, which compares the time fields as raw strings. -/
theorem C2_counterexample :
    specEqEvent c2z c2off = true ∧ eqEvent c2z c2off = false := by decide

/-- C2 (amended): the predicate returns true iff name, start time, end time,
metadata and privacy level are equal as raw values — start/end compared as
strings, so distinct representations of one instant compare unequal — and it
ignores `event_id` and `description`, which lets a calendar-derived event
(no id) match a remote event (with id). -/
theorem C2_equality_raw_fields :
    (∀ a b : Event, eqEvent a b = true ↔
        a.name = b.name ∧ a.start_time = b.start_time ∧ a.end_time = b.end_time
          ∧ a.metadata = b.metadata ∧ a.privacy_level = b.privacy_level)
      ∧ (∀ (a b : Event) (i : Option String) (d : String),
          eqEvent { a with event_id := i, description := d } b = eqEvent a b) := by
  constructor
  · exact eqEvent_iff
  · intro a b i d
    simp [eqEvent]

/-- Witness for C2: instantiating the amended characterization shows the
`Z`-vs-offset pair unequal because the raw start strings differ. -/
theorem C2_equality_raw_fields_witness : eqEvent c2z c2off = false := by
  rw [Bool.eq_false_iff]
  intro htrue
  have hfields := (C2_equality_raw_fields.1 c2z c2off).mp htrue
  have : c2z.start_time = c2off.start_time := hfields.2.1
  simp [c2z, c2off] at this

/-- C3: after a run that completes normally, the saved history is exactly the
pre-existing records whose remote event ids still exist on the platform plus
the records added during this run's creation phase, written back wholesale. -/
theorem C3_persisted_history
    (cal_events : List Event) (history0 : List HistoryRecord) (m : Bool)
    (co : Nat → Option String) (mo : String → String × String)
    (dlo : HistoryRecord → Nat) (st0 : GuildState) (r : RunResult)
    (hrun : update_events (.ok cal_events) history0 m co mo dlo st0 = .ok r) :
    r.saved_history =
      some (history0.filter (fun rec => event_id_exists r.guild rec.event_id)
        ++ r.sent_messages) := by
  cases cal_events with
  | nil =>
      rw [update_events_nil] at hrun
      simp only [Except.ok.injEq] at hrun
      subst hrun
      simp [cleanup_kept]
  | cons e es =>
      rw [update_events_cons] at hrun
      simp only [Except.ok.injEq] at hrun
      subst hrun
      have hinv := creation_loop_inv st0 m co mo (e :: es)
      simp only [cleanup_kept, List.filter_append]
      rw [List.filter_eq_self.mpr hinv.sent_ok]

/-- A stale history record (its event id never exists in the fixtures). -/
def wStale : HistoryRecord := { event_id := "gone", message_id := "m0", channel_id := "c0" }

/-- A failing DELETE oracle: every message delete returns HTTP 500. -/
def wDlo500 : HistoryRecord → Nat := fun _ => 500

/-- The run of the C3 witness scenario: empty guild, one candidate created and
announced, one stale record retired. -/
def c3run : RunResult :=
  { create_calls := [wEvent], created := [("x1", wEvent)]
    sent_messages := [⟨"x1", "x1m", "chan"⟩], delete_calls := [(wStale, 204)]
    added_events := 1, summary := some "1 new event added."
    saved_history := some [⟨"x1", "x1m", "chan"⟩]
    guild := ⟨[{ wEvent with event_id := some "x1" }]⟩ }

/-- Witness for C3 at a concrete input: the saved store is the surviving old
records plus the newly added one. -/
theorem C3_persisted_history_witness :
    c3run.saved_history =
      some ([wStale].filter (fun rec => event_id_exists c3run.guild rec.event_id)
        ++ c3run.sent_messages) :=
  C3_persisted_history [wEvent] [wStale] true wCo wMo wDlo ⟨[]⟩ c3run rfl

/-- C4 counterexample: a stale record whose message DELETE fails with HTTP 500
(neither success nor "not found") is still removed from the retained set —
`delete_message` swallows the status and `cleanup_old_messages` collects the
record in `deleted_messages` unconditionally, so the claim's "left in place
for retry" behaviour does not hold. -/
theorem C4_counterexample :
    (cleanup_old_messages wDlo500 ⟨[]⟩ [wStale]).1 = [(wStale, 500)]
      ∧ wStale ∉ (cleanup_old_messages wDlo500 ⟨[]⟩ [wStale]).2
      ∧ (cleanup_old_messages wDlo500 ⟨[]⟩ [wStale]).2 = [] := by decide

/-- C4 (amended): for every history record whose event id is absent from the
platform's current list, the retraction phase requests deletion of its
message, and the record is removed from the retained set regardless of the
DELETE outcome — success, "not found" and any other failure alike; nothing is
kept for retry. -/
theorem C4_retraction_removes_regardless
    (dlo : HistoryRecord → Nat) (st : GuildState) (history : List HistoryRecord)
    (rec : HistoryRecord) (hmem : rec ∈ history)
    (hstale : event_id_exists st rec.event_id = false) :
    (rec, dlo rec) ∈ (cleanup_old_messages dlo st history).1
      ∧ rec ∉ (cleanup_old_messages dlo st history).2 := by
  have hdel : rec ∈ history.filter (fun m => ! event_id_exists st m.event_id) :=
    List.mem_filter.mpr ⟨hmem, by simp [hstale]⟩
  constructor
  · exact List.mem_map.mpr ⟨rec, hdel, rfl⟩
  · intro hkept
    rcases List.mem_filter.mp hkept with ⟨_, hno⟩
    simp only [Bool.not_eq_true'] at hno
    rw [List.contains_eq_any_beq] at hno
    have : (history.filter (fun m => ! event_id_exists st m.event_id)).any
        (fun x => rec == x) = true :=
      List.any_eq_true.mpr ⟨rec, hdel, by simp⟩
    rw [hno] at this
    exact Bool.false_ne_true this

/-- Witness for C4 at a concrete input: the stale record with a failing DELETE
is delete-called and removed. -/
theorem C4_retraction_removes_regardless_witness :
    (wStale, 500) ∈ (cleanup_old_messages wDlo500 ⟨[]⟩ [wStale]).1
      ∧ wStale ∉ (cleanup_old_messages wDlo500 ⟨[]⟩ [wStale]).2 :=
  C4_retraction_removes_regardless wDlo500 ⟨[]⟩ [wStale] wStale
    (List.mem_singleton.mpr rfl) (by decide)

/-- C5: if a first reconciliation run completes with every creation API call
succeeding with a usable id, then a second run over the same candidate list,
starting from the remote event list the first run left behind and from the
history it saved, requests no creation, creates no remote event, and appends
no new history record. -/
theorem C5_idempotence
    (cal_events : List Event) (history0 : List HistoryRecord) (m : Bool)
    (co1 co2 : Nat → Option String) (mo1 mo2 : String → String × String)
    (dlo1 dlo2 : HistoryRecord → Nat) (st0 : GuildState) (r1 r2 : RunResult)
    (hsucc : ∀ n, co1 n ≠ none ∧ co1 n ≠ some "")
    (h1 : update_events (.ok cal_events) history0 m co1 mo1 dlo1 st0 = .ok r1)
    (h2 : update_events (.ok cal_events) (r1.saved_history.getD []) m co2 mo2 dlo2
            r1.guild = .ok r2) :
    r2.create_calls = [] ∧ r2.created = [] ∧ r2.sent_messages = []
      ∧ r2.added_events = 0 := by
  cases cal_events with
  | nil =>
      rw [update_events_nil] at h2
      simp only [Except.ok.injEq] at h2
      subst h2
      exact ⟨rfl, rfl, rfl, rfl⟩
  | cons e es =>
      rw [update_events_cons] at h1
      simp only [Except.ok.injEq] at h1
      have hguild : r1.guild = (creation_loop m co1 mo1 st0 (e :: es)).guild := by
        rw [← h1]
      have hall : ∀ f ∈ e :: es, event_in_list f r1.guild.events = true := by
        rw [hguild]
        exact fun f hf => foldl_all_mem m co1 mo1 hsucc (e :: es) _ f hf
      rw [update_events_cons] at h2
      simp only [Except.ok.injEq] at h2
      subst h2
      have hnoop : creation_loop m co2 mo2 r1.guild (e :: es)
          = ⟨r1.guild, [], [], [], 0, 0⟩ :=
        foldl_noop m co2 mo2 (e :: es) ⟨r1.guild, [], [], [], 0, 0⟩ hall
      rw [hnoop]
      exact ⟨rfl, rfl, rfl, rfl⟩

/-- A second candidate used by the C5 witness. -/
def c5run1 : RunResult :=
  { create_calls := [wEvent], created := [("x1", wEvent)], sent_messages := []
    delete_calls := [], added_events := 1, summary := some "1 new event added."
    saved_history := some [], guild := ⟨[{ wEvent with event_id := some "x1" }]⟩ }

def c5run2 : RunResult :=
  { create_calls := [], created := [], sent_messages := [], delete_calls := []
    added_events := 0, summary := some "All upcoming events already exist."
    saved_history := some [], guild := ⟨[{ wEvent with event_id := some "x1" }]⟩ }

/-- Witness for C5 at a concrete input: the first run creates the single
candidate, the second run is a no-op. -/
theorem C5_idempotence_witness :
    c5run2.create_calls = [] ∧ c5run2.created = [] ∧ c5run2.sent_messages = []
      ∧ c5run2.added_events = 0 :=
  C5_idempotence [wEvent] [] false wCo wCo wMo wMo wDlo wDlo ⟨[]⟩ c5run1 c5run2
    (fun _ => ⟨by simp [wCo], by simp [wCo]⟩) rfl rfl

/-- C6 counterexample: when the calendar content fails to parse, the run does
not abort non-fatally — the exception raised by `icalendar.Calendar.from_ical`
is not caught by `update_events` (its handler covers only
`requests.exceptions.RequestException`) and propagates out of the engine, so
no zero-action `RunResult` is produced. -/
theorem C6_counterexample :
    update_events .parseError [] false wCo wMo wDlo ⟨[]⟩ = .error ()
      ∧ (update_events .parseError [] false wCo wMo wDlo ⟨[]⟩).toOption = none :=
  ⟨rfl, rfl⟩

/-- C6 (amended): a run whose calendar fetch fails with a network error is
aborted non-fatally with zero actions taken — nothing created, posted or
deleted, the history file untouched, the guild state unchanged — while a
calendar parse error propagates out of `update_events` as an exception. -/
theorem C6_fetch_error_behaviour
    (history0 : List HistoryRecord) (m : Bool) (co : Nat → Option String)
    (mo : String → String × String) (dlo : HistoryRecord → Nat) (st0 : GuildState) :
    update_events .networkError history0 m co mo dlo st0 =
        .ok { create_calls := [], created := [], sent_messages := [], delete_calls := []
              added_events := 0, summary := none, saved_history := none, guild := st0 }
      ∧ update_events .parseError history0 m co mo dlo st0 = .error () :=
  ⟨rfl, rfl⟩

/-- A calendar event used in the C7 counterexample. -/
def c7event : Event :=
  { event_id := none, name := "Early", description := ""
    start_time := "1970-01-01T00:16:40+00:00", end_time := "1970-01-01T01:00:00+00:00"
    metadata := [("location", "L")], privacy_level := 2 }

/-- C7 counterexample: for a run starting Wednesday 12:00 UTC (second 216000
of an epoch week that begins Monday 00:00), an occurrence on Monday 00:16:40
(second 1000) lies in the spec's claimed Monday-through-Sunday window but is
not selected, and an occurrence on Sunday 23:00 (second 601200) also lies in
the claimed window but is past the code's upper bound (Sunday 12:00): the
fetched candidates are not the claimed window and depend on the time within
the week at which the run starts. -/
theorem C7_counterexample :
    in_window (spec_week_window 216000) 1000 = true
      ∧ in_window (this_week_window 216000) 1000 = false
      ∧ in_window (spec_week_window 216000) 601200 = true
      ∧ in_window (this_week_window 216000) 601200 = false
      ∧ get_this_week_events [(1000, c7event)] 216000 = [] := by decide

/-- C7 (amended): the queried window runs from the run instant `now` itself
(not Monday 00:00) to `now + (6 - weekday) · 86400` seconds — six days after
the most recent Monday at the same time of day as the run (not Sunday
23:59:59) — and the candidates are exactly the calendar occurrences falling in
that interval. -/
theorem C7_window_is_now_to_sunday_sametime (now : Nat) :
    (this_week_window now).1 = now
      ∧ (this_week_window now).2 = now + seconds_per_day * (6 - weekday_of now)
      ∧ ∀ cal : List (Nat × Event),
          get_this_week_events cal now =
            (cal.filter (fun p =>
                now ≤ p.1 && p.1 ≤ now + seconds_per_day * (6 - weekday_of now))).map
              (fun p => p.2) := by
  have hub : now - seconds_per_day * weekday_of now + 6 * seconds_per_day
      = now + seconds_per_day * (6 - weekday_of now) := by
    have hw : weekday_of now ≤ 6 := by
      have : weekday_of now < 7 := Nat.mod_lt _ (by norm_num)
      omega
    have hle : seconds_per_day * weekday_of now ≤ now := by
      calc seconds_per_day * weekday_of now
          ≤ seconds_per_day * (now / seconds_per_day) :=
            Nat.mul_le_mul_left _ (Nat.mod_le _ _)
        _ = now / seconds_per_day * seconds_per_day := Nat.mul_comm _ _
        _ ≤ now := Nat.div_mul_le_self _ _
    set w := weekday_of now with hwdef
    simp only [seconds_per_day] at hle ⊢
    interval_cases w <;> omega
  refine ⟨rfl, hub, ?_⟩
  intro cal
  unfold get_this_week_events
  have : ∀ p : Nat × Event,
      in_window (this_week_window now) p.1
        = (now ≤ p.1 && p.1 ≤ now + seconds_per_day * (6 - weekday_of now)) := by
    intro p
    simp only [in_window, this_week_window, hub]
  simp only [this]

/-- The three-candidate fixture for C8; the three events differ by name. -/
def c8e1 : Event :=
  { event_id := none, name := "A", description := ""
    start_time := "2024-01-01T10:00:00+00:00", end_time := "2024-01-01T11:00:00+00:00"
    metadata := [("location", "L")], privacy_level := 2 }

def c8e2 : Event := { c8e1 with name := "B" }

def c8e3 : Event := { c8e1 with name := "C" }

/-- Creation oracle of the C8 scenario: the second creation attempt fails. -/
def c8co : Nat → Option String
  | 0 => some "a1"
  | 1 => none
  | _ => some "a3"

/-- Extract the run result of a run that completed normally (the fallback is
never reached in the fixtures). -/
def run_result_of : Except Unit RunResult → RunResult
  | .ok r => r
  | .error _ =>
      { create_calls := [], created := [], sent_messages := [], delete_calls := []
        added_events := 0, summary := none, saved_history := none, guild := ⟨[]⟩ }

/-- The C8 scenario run: empty guild, three candidates, second creation fails,
announcements configured. -/
def c8run : RunResult :=
  run_result_of (update_events (.ok [c8e1, c8e2, c8e3]) [] true c8co wMo wDlo ⟨[]⟩)

/-- C8: a creation failure for one candidate skips only that candidate — with
3 candidates and the 2nd failing at creation, the 1st and 3rd are still
created and announced — and in every run the reported added count equals the
number of successful creations, with "already exists" phrasing (no numeric
zero) when that number is 0. -/
theorem C8_partial_failure_and_count :
    (∀ (cal_events : List Event) (history0 : List HistoryRecord) (m : Bool)
        (co : Nat → Option String) (mo : String → String × String)
        (dlo : HistoryRecord → Nat) (st0 : GuildState) (r : RunResult),
      update_events (.ok cal_events) history0 m co mo dlo st0 = .ok r →
        r.added_events = r.created.length)
    ∧ (∀ (cal_events : List Event) (history0 : List HistoryRecord) (m : Bool)
        (co : Nat → Option String) (mo : String → String × String)
        (dlo : HistoryRecord → Nat) (st0 : GuildState) (r : RunResult),
      update_events (.ok cal_events) history0 m co mo dlo st0 = .ok r →
        r.added_events = 0 → cal_events ≠ [] →
          r.summary = some "All upcoming events already exist.")
    ∧ c8run.create_calls = [c8e1, c8e2, c8e3]
    ∧ c8run.created = [("a1", c8e1), ("a3", c8e3)]
    ∧ c8run.sent_messages = [⟨"a1", "a1m", "chan"⟩, ⟨"a3", "a3m", "chan"⟩]
    ∧ c8run.added_events = 2
    ∧ c8run.summary = some "2 new events added." := by
  refine ⟨?_, ?_, ?_, ?_, ?_, ?_, ?_⟩
  · intro cal_events history0 m co mo dlo st0 r hrun
    cases cal_events with
    | nil =>
        rw [update_events_nil] at hrun
        simp only [Except.ok.injEq] at hrun
        subst hrun
        rfl
    | cons e es =>
        rw [update_events_cons] at hrun
        simp only [Except.ok.injEq] at hrun
        subst hrun
        exact (creation_loop_inv st0 m co mo (e :: es)).added_len
  · intro cal_events history0 m co mo dlo st0 r hrun hzero hne
    cases cal_events with
    | nil => exact absurd rfl hne
    | cons e es =>
        rw [update_events_cons] at hrun
        simp only [Except.ok.injEq] at hrun
        subst hrun
        simp only at hzero ⊢
        rw [if_pos hzero]
  · rfl
  · rfl
  · rfl
  · rfl
  · rfl

/-- Witness for C8: the general count statement applied to the concrete
three-candidate partial-failure run. -/
theorem C8_partial_failure_and_count_witness :
    c8run.added_events = c8run.created.length :=
  C8_partial_failure_and_count.1 [c8e1, c8e2, c8e3] [] true c8co wMo wDlo ⟨[]⟩
    c8run rfl

/-- C9: loading a history file whose content is malformed logs a warning and
yields the empty record list; `file_history_load` is a total function — the
`JSONDecodeError` is caught inside `_load`, so no error reaches the run, which
continues with empty history (both directly and through `__init__`). -/
theorem C9_corrupt_history_recovery :
    file_history_load .malformed = { history := [], warned := true }
      ∧ file_history_init (some .malformed) = { history := [], warned := true }
      ∧ (∀ c : HistFileContent, (file_history_load c).warned = true → c = .malformed) := by
  refine ⟨rfl, rfl, ?_⟩
  intro c hw
  cases c with
  | valid records => exact absurd hw (by simp [file_history_load])
  | malformed => rfl

/-- Witness for C9: the warning flag on a concrete malformed load comes only
from the malformed case. -/
theorem C9_corrupt_history_recovery_witness : HistFileContent.malformed = .malformed :=
  C9_corrupt_history_recovery.2.2 .malformed rfl

/-- C10: values that are not boolean literals are coerced to booleans by
`get_from_env` because the truthy/falsy patterns are unanchored alternations
searched inside the value: "salon" (contains "on") and "UNTRUE" (contains
"TRUE") both load as the boolean true instead of the string. -/
theorem C10_env_substring_coercion :
    get_from_env (some "salon") none = .bool true
      ∧ get_from_env (some "UNTRUE") none = .bool true
      ∧ get_from_env (some "salon") none ≠ .str "salon"
      ∧ "salon" ∉ bool_literals
      ∧ "UNTRUE" ∉ bool_literals := by decide
